import Mathlib

/-!
Verification of the Watch-and-Sort file-sorting engine.

This file gives a shallow embedding of the core of the repository
(`sorter/matcher.py`, `sorter/renamer.py`, `sorter/watcher.py`) and proves
properties of the embedded definitions.

Modelling conventions:
* Python strings are `List Char`; Python's `str.lower` is modelled for the
  ASCII range by `lowerChar` / `lowerStr`.
* Filesystem observations made by a single `process_file` call are collected
  in an `Env` record: the result of the accessibility probe, the sequence of
  size samples the repeated `os.path.getsize` calls would observe (`none`
  standing for `FileNotFoundError`), the listing of the destination directory
  at dispatch time, and whether the byte copy succeeds.
* `os.path` primitives (`abspath`, `basename`, `normpath`, `join`) are
  library collaborators, passed in as a `PathOps` record of pure functions.
* Python exceptions that `process_file` catches are modelled as early
  `(false, state, [])` returns; a raised-and-propagated exception would be a
  partial function, so totality of the Lean function records that the
  per-file handler swallows all errors.
* Python's `str.format` applied to a rule's `rename_format` is modelled on
  the parsed form of the template: a list of `FormatTok`.  A template field
  that is not bound by the call (the `title` field of the fallback template)
  makes formatting fail (`none`), matching the `KeyError` the Python raises.
-/

/-- ASCII lowercasing of one character, modelling `str.lower` on the ASCII
range (the range exercised by the repository's keyword examples). -/
def lowerChar (c : Char) : Char :=
  if 'A' ≤ c ∧ c ≤ 'Z' then Char.ofNat (c.toNat + 32) else c

/-- ASCII lowercasing of a string, modelling `filename.lower()`. -/
def lowerStr (s : List Char) : List Char :=
  s.map lowerChar

/-- Python's substring test `needle in hay`: `needle` occurs contiguously in
`hay`. -/
def containsSub (needle hay : List Char) : Bool :=
  decide (needle <:+: hay)

/-- A parsed `str.format` template token.  `rename_format` strings such as
"Arcane - S" followed by a two-digit season field, "E" and a two-digit
episode field are represented as token lists; `titleField` is the field of
the fallback template, which `generate_new_filename` never binds. -/
inductive FormatTok where
  | lit : List Char → FormatTok
  | seasonField : Nat → FormatTok
  | episodeField : Nat → FormatTok
  | titleField : FormatTok
deriving DecidableEq, Repr

/-- One rule record from `rules.json` as consumed by the core:
`source`, `match_keywords`, `destination`, `rename_format`, `season`.
`destination` and `rename_format` are `Option`s because the Python code reads
them with `rule["destination"]` (KeyError when missing) and
`rule.get("rename_format", "...")`; `season` is read with
`rule.get("season", 1)`. -/
structure Rule where
  source : List Char
  match_keywords : List (List Char)
  destination : Option (List Char)
  rename_format : Option (List FormatTok)
  season : Option Nat
deriving DecidableEq, Repr

/-- The per-rule test of `find_matching_rule` (`sorter/matcher.py`): every
keyword, lowercased, is a substring of the lowercased filename. -/
def ruleMatches (fname_lower : List Char) (rule : Rule) : Bool :=
  rule.match_keywords.all (fun kw => containsSub (lowerStr kw) fname_lower)

/-- `find_matching_rule` from `sorter/matcher.py`: lowercase the filename
once, return the first rule all of whose keywords occur in it. -/
def find_matching_rule (filename : List Char) (rules : List Rule) : Option Rule :=
  rules.find? (ruleMatches (lowerStr filename))

/-- Index of the last dot of a string, or `none` ( `p.rfind(extsep)` ). -/
def lastDotIdx (l : List Char) : Option Nat :=
  match l.reverse.findIdx? (fun c => c = '.') with
  | none => none
  | some k => some (l.length - 1 - k)

/-- `os.path.splitext` on a basename (the code only applies it to
`os.path.basename(filepath)`): split at the last dot, unless every character
before that dot is itself a dot (leading-dot files keep their name whole). -/
def splitext (p : List Char) : List Char × List Char :=
  match lastDotIdx p with
  | none => (p, [])
  | some i => if (p.take i).any (fun c => c ≠ '.') then (p.take i, p.drop i) else (p, [])

/-- Python's `format(x, "0Nd")` for naturals: decimal digits, left-padded
with zeros to the requested width. -/
def padZero (width n : Nat) : List Char :=
  let ds := Nat.toDigits 10 n
  List.replicate (width - ds.length) '0' ++ ds

/-- Evaluation of a parsed template with `season` and `episode` bound,
modelling `fmt.format(season=..., episode=...)`.  An occurrence of the
unbound `title` field raises `KeyError` in Python, modelled as `none`. -/
def formatTemplate (season episode : Nat) : List FormatTok → Option (List Char)
  | [] => some []
  | FormatTok.lit s :: rest => (formatTemplate season episode rest).map (fun t => s ++ t)
  | FormatTok.seasonField w :: rest =>
      (formatTemplate season episode rest).map (fun t => padZero w season ++ t)
  | FormatTok.episodeField w :: rest =>
      (formatTemplate season episode rest).map (fun t => padZero w episode ++ t)
  | FormatTok.titleField :: _ => none

/-- `generate_new_filename` from `sorter/renamer.py`: split the original
filename into stem and extension, format the rule's `rename_format` (falling
back to the bare `title` field template) with `season` and `episode`, and
re-append the original extension. -/
def generate_new_filename (original_filename : List Char) (rule : Rule)
    (season episode : Nat) : Option (List Char) :=
  let ext := (splitext original_filename).2
  let fmt := rule.rename_format.getD [FormatTok.titleField]
  (formatTemplate season episode fmt).map (fun s => s ++ ext)

/-- One entry of a directory listing, with the `os.path.isfile` verdict for
it. -/
structure DirEntry where
  name : List Char
  isFile : Bool
deriving DecidableEq, Repr

/-- `get_next_episode_number` from `sorter/renamer.py`, applied to the
listing of the season directory: count the regular files and add one. -/
def get_next_episode_number (listing : List DirEntry) : Nat :=
  let existing := listing.filter (fun e => e.isFile)
  existing.length + 1

/-- `wait_for_file_complete` from `sorter/watcher.py`, expressed over the
sequence of size samples the loop would observe: `none` is a
`FileNotFoundError` (immediate not-ready), and the loop returns ready as
soon as a sample equals the previous one and is strictly positive.  The
`prev` accumulator starts at `-1`, the sentinel used by the Python code. -/
def wfcAux (prev : Int) : List (Option Int) → Bool
  | [] => false
  | none :: _ => false
  | some c :: rest => if prev = c ∧ 0 < c then true else wfcAux c rest

/-- The size-stability probe over its sample sequence (one sample per retry;
the list length is the retry budget). -/
def wait_for_file_complete (samples : List (Option Int)) : Bool :=
  wfcAux (-1) samples

/-- The temporary-suffix denylist check of `process_file`:
`filename.endswith((".part", ".!qb", ".crdownload"))`. -/
def isTempFile (filename : List Char) : Bool :=
  (".part".toList).isSuffixOf filename ||
  (".!qb".toList).isSuffixOf filename ||
  (".crdownload".toList).isSuffixOf filename

/-- The `os.path` primitives `process_file` relies on, passed in as pure
collaborator functions: `abspath`, `basename`, `normpath` and `join`. -/
structure PathOps where
  abspath : List Char → List Char
  basename : List Char → List Char
  normpath : List Char → List Char
  join : List Char → List Char → List Char

/-- The filesystem observations a single `process_file` call makes:
whether `wait_for_file_accessible` succeeds, the size samples
`wait_for_file_complete` observes (at most ten are consumed, the default
retry budget), the destination-directory listing after `os.makedirs`, and
whether the byte copy (`copy_with_progress`) succeeds. -/
structure Env where
  accessible : Bool
  sizes : List (Option Int)
  destListing : List DirEntry
  copyOk : Bool
deriving DecidableEq

/-- Python's `set.add` on the processed-path set: membership-preserving
insertion (a no-op when the path is already present). -/
def insertPath (p : List Char) (l : List (List Char)) : List (List Char) :=
  if p ∈ l then l else p :: l

/-- The mutable state of one `SortHandler`: its `processed_files` set (as a
list of canonical paths with set membership) and its
`manual_scan_in_progress` flag. -/
structure GuardState where
  processed : List (List Char)
  manual_scan_in_progress : Bool
deriving DecidableEq, Repr

/-- A copy request handed to the copy primitive: source and destination
paths. -/
abbrev CopyOp : Type := (List Char) × (List Char)

/-- `SortHandler.process_file` from `sorter/watcher.py`, sequential
semantics.  Returns the Python return value, the updated handler state, and
the list of copy operations issued.  Every `except`-caught failure path of
the Python function returns `False` and leaves the state untouched, which
here is the literal triple `(false, s, [])`. -/
def process_file (ops : PathOps) (env : Env) (s : GuardState) (rules : List Rule)
    (filepath0 : List Char) : Bool × GuardState × List CopyOp :=
  let filepath := ops.abspath filepath0
  if filepath ∈ s.processed then (false, s, [])
  else
    let filename := ops.basename filepath
    if isTempFile filename then (false, s, [])
    else if !env.accessible then (false, s, [])
    else if !wait_for_file_complete (env.sizes.take 10) then (false, s, [])
    else
      match find_matching_rule filename rules with
      | none => (false, s, [])
      | some rule =>
        if (ops.normpath rule.source).isPrefixOf (ops.normpath filepath) then
          match rule.destination with
          | none => (false, s, [])
          | some dest =>
            match generate_new_filename filename rule (rule.season.getD 1)
                (get_next_episode_number env.destListing) with
            | none => (false, s, [])
            | some newName =>
              if env.copyOk then
                (true, { s with processed := insertPath filepath s.processed },
                  [(filepath, ops.join dest newName)])
              else (false, s, [])
        else (false, s, [])

/-- `SortHandler.on_created`: for a non-directory event, bail out while a
manual scan is in progress, otherwise run `process_file`.  The first
component is `none` when `process_file` was never reached (the handler
returned without processing) and `some b` when it returned `b`. -/
def on_created (ops : PathOps) (env : Env) (s : GuardState) (rules : List Rule)
    (path : List Char) (is_directory : Bool) : Option Bool × GuardState × List CopyOp :=
  if is_directory then (none, s, [])
  else if s.manual_scan_in_progress then (none, s, [])
  else
    match process_file ops env s rules path with
    | (b, s1, cs) => (some b, s1, cs)

/-- `SortHandler.on_modified`: identical control flow to `on_created` (the
two differ only in what they print). -/
def on_modified (ops : PathOps) (env : Env) (s : GuardState) (rules : List Rule)
    (path : List Char) (is_directory : Bool) : Option Bool × GuardState × List CopyOp :=
  if is_directory then (none, s, [])
  else if s.manual_scan_in_progress then (none, s, [])
  else
    match process_file ops env s rules path with
    | (b, s1, cs) => (some b, s1, cs)

/-- The handler-construction loop of `start_watching`: walk the rules in
order; skip a rule whose `source` is empty or not a directory, or which has
no `destination`; for a surviving rule whose source has no handler yet,
create the handler for that source with `[r for r in rules if
r.get("source") == source]` — every rule sharing the source, regardless of
that sibling rule's own validity. -/
def buildHandlers (isdir : List Char → Bool) (rules : List Rule) :
    List ((List Char) × List Rule) :=
  rules.foldl
    (fun handlers rule =>
      if rule.source = [] ∨ !isdir rule.source then handlers
      else if rule.destination = none then handlers
      else if (handlers.lookup rule.source).isSome then handlers
      else handlers ++ [(rule.source, rules.filter (fun r => r.source = rule.source))])
    []

/-- Sequential iteration of `process_file` on one path: the results, the
copies issued across all calls, and the final state.  This is the behaviour
of N notifications for the same path delivered one after another. -/
def iterateHandle (ops : PathOps) (env : Env) (rules : List Rule)
    (p : List Char) : Nat → GuardState → List Bool × List CopyOp × GuardState
  | 0, s => ([], [], s)
  | n + 1, s =>
    match process_file ops env s rules p with
    | (b, s1, cs) =>
      match iterateHandle ops env rules p n s1 with
      | (bs, css, s2) => (b :: bs, cs ++ css, s2)

/-!
Interleaving model of concurrent `process_file` invocations.

`process_file` holds the handler lock for exactly two regions: the
membership check of `processed_files` at the top, and the
`processed_files.add` after a successful copy.  Everything between (probe,
match, copy) runs unlocked.  A concurrent execution is therefore an
interleaving of three atomic actions per invocation:

* `checking`  — lock; membership test; unlock.  Moves to `finished false`
  on a hit, to `working` on a miss.
* `working`   — the unlocked region.  For a path the environment lets
  succeed (member of `okPaths`: accessible, stable, matched, copy succeeds)
  this issues the copy and moves to `inserting`; otherwise it moves to
  `finished false` with no copy.
* `inserting` — lock; `processed_files.add`; unlock; return `True`
  (`finished true`, the `Processed` outcome).
-/

/-- Program counter of one in-flight `process_file` invocation. -/
inductive TPC where
  | checking : TPC
  | working : TPC
  | inserting : TPC
  | finished : Bool → TPC
deriving DecidableEq, Repr

/-- One in-flight invocation: its argument path and program counter. -/
structure ThreadSt where
  path : List Char
  pc : TPC
deriving DecidableEq, Repr

/-- Shared state of the interleaving model: the invocations, the handler's
`processed_files` set, the log of issued copies, and the set of paths the
environment would let succeed. -/
structure Sys where
  threads : List ThreadSt
  processed : List (List Char)
  copies : List (List Char)
  okPaths : List (List Char)
deriving DecidableEq, Repr

/-- Execute one atomic action of invocation `i` (no-op for an out-of-range
index or a finished invocation). -/
def sysStep (s : Sys) (i : Nat) : Sys :=
  match s.threads[i]? with
  | none => s
  | some t =>
    match t.pc with
    | TPC.checking =>
      if t.path ∈ s.processed then
        { s with threads := s.threads.set i { t with pc := TPC.finished false } }
      else
        { s with threads := s.threads.set i { t with pc := TPC.working } }
    | TPC.working =>
      if t.path ∈ s.okPaths then
        { s with threads := s.threads.set i { t with pc := TPC.inserting },
                 copies := s.copies ++ [t.path] }
      else
        { s with threads := s.threads.set i { t with pc := TPC.finished false } }
    | TPC.inserting =>
      { s with threads := s.threads.set i { t with pc := TPC.finished true },
               processed := insertPath t.path s.processed }
    | TPC.finished _ => s

/-- Run a schedule (a list of invocation indices) from a start state. -/
def sysRun (s : Sys) (sched : List Nat) : Sys :=
  sched.foldl sysStep s

/-- An invocation that returned `True`, i.e. reported the `Processed`
outcome. -/
def isProcessedOutcome (t : ThreadSt) : Bool :=
  decide (t.pc = TPC.finished true)

/-- Start state for two racing invocations of `process_file` on the same
never-seen path, in an environment where the file is ready, matched and
copyable. -/
def racePath : List Char := "/dl/arcane.s2e05.mkv".toList

/-- Two concurrent invocations on `racePath`, nothing processed yet. -/
def raceInit : Sys :=
  { threads := [{ path := racePath, pc := TPC.checking },
                { path := racePath, pc := TPC.checking }]
    processed := []
    copies := []
    okPaths := [racePath] }

/-- The interleaving in which both invocations pass the membership check
before either reaches the insert: check, check, copy, copy, insert,
insert. -/
def raceSched : List Nat := [0, 1, 0, 1, 0, 1]

/-!
Concrete scenario used by the witnesses: identity-like path operations, an
environment where the file is ready, and the Arcane rule of the example
configuration.
-/

/-- Concrete path operations for witnesses: paths are already canonical,
and `join` inserts a separator. -/
def idOps : PathOps :=
  { abspath := fun p => p
    basename := fun p => p
    normpath := fun p => p
    join := fun d n => d ++ '/' :: n }

/-- The parsed form of the template "Arcane - S" + two-digit season + "E" +
two-digit episode (the `rename_format` of the example rules). -/
def arcaneFmt : List FormatTok :=
  [FormatTok.lit ("Arcane - S".toList), FormatTok.seasonField 2,
   FormatTok.lit ("E".toList), FormatTok.episodeField 2]

/-- The Arcane rule of the example configuration: keywords `arcane` and
`s2`, season 2. -/
def arcaneRule : Rule :=
  { source := "/dl".toList
    match_keywords := ["arcane".toList, "s2".toList]
    destination := some ("/tv/Arcane".toList)
    rename_format := some arcaneFmt
    season := some 2 }

/-- An environment in which the file is accessible, its size stabilises at
a positive value, the destination currently holds two regular files and one
subdirectory, and the copy succeeds. -/
def goodEnv : Env :=
  { accessible := true
    sizes := [some 100, some 100]
    destListing := [{ name := "a".toList, isFile := true },
                    { name := "sub".toList, isFile := false },
                    { name := "b".toList, isFile := true }]
    copyOk := true }

/-- A fresh handler state: nothing processed, no scan in progress. -/
def freshState : GuardState :=
  { processed := [], manual_scan_in_progress := false }

/-- A broad rule whose single keyword `arcane` also matches the Arcane
filenames; used to exercise first-match-wins ordering. -/
def catchAllRule : Rule :=
  { source := "/dl".toList
    match_keywords := ["arcane".toList]
    destination := some ("/tv/ArcaneAll".toList)
    rename_format := some arcaneFmt
    season := some 1 }

/-- `goodEnv` with a failing copy primitive. -/
def badCopyEnv : Env :=
  { goodEnv with copyOk := false }

/-- A handler state in which `racePath` has already been processed. -/
def dupState : GuardState :=
  { processed := [racePath], manual_scan_in_progress := false }

/-- A handler state during a manual scan. -/
def scanState : GuardState :=
  { processed := [], manual_scan_in_progress := true }

/-- A rule with a valid source but no `destination` key. -/
def ruleNoDest : Rule :=
  { source := "/dl".toList
    match_keywords := ["alpha".toList]
    destination := none
    rename_format := none
    season := none }

/-- A fully valid rule sharing its source directory with `ruleNoDest`. -/
def ruleWithDest : Rule :=
  { source := "/dl".toList
    match_keywords := ["beta".toList]
    destination := some ("/tv/Beta".toList)
    rename_format := none
    season := none }

/-- An `os.path.isdir` oracle under which exactly `/dl` exists. -/
def dlIsdir : List Char → Bool :=
  fun l => l == "/dl".toList

/-- Inserting a path keeps every existing member. -/
lemma subset_insertPath (p : List Char) (l : List (List Char)) :
    l ⊆ insertPath p l := by
  intro x hx
  by_cases h : p ∈ l
  · simpa [insertPath, h] using hx
  · simp only [insertPath, if_neg h]
    exact List.mem_cons_of_mem p hx

/-- The inserted path is a member of the result. -/
lemma mem_insertPath_self (p : List Char) (l : List (List Char)) :
    p ∈ insertPath p l := by
  by_cases h : p ∈ l
  · simp [insertPath, h]
  · simp [insertPath, h]

/-- Every run of `process_file` either fails, returning `False` with the
state and copy log untouched, or succeeds, returning `True`, inserting the
canonical path into the processed set, and issuing exactly one copy of the
canonical path. -/
lemma process_file_cases (ops : PathOps) (env : Env) (s : GuardState)
    (rules : List Rule) (p : List Char) :
    process_file ops env s rules p = (false, s, []) ∨
    ∃ dst, process_file ops env s rules p =
      (true, { s with processed := insertPath (ops.abspath p) s.processed },
        [(ops.abspath p, dst)]) := by
  simp only [process_file]
  repeat' split
  all_goals try exact Or.inl rfl
  all_goals exact Or.inr ⟨_, rfl⟩

/-- A path whose canonical form is already in the processed set is rejected
at the first lock-guarded check: `False`, no copy, state unchanged. -/
lemma process_file_dup (ops : PathOps) (env : Env) (s : GuardState)
    (rules : List Rule) (p : List Char) (h : ops.abspath p ∈ s.processed) :
    process_file ops env s rules p = (false, s, []) := by
  simp only [process_file]
  rw [if_pos h]

/-- When the copy primitive fails, every branch of `process_file` returns
`False` with the state untouched: the exception is caught per-file and the
path is not added to the processed set. -/
lemma process_file_copy_failed (ops : PathOps) (env : Env) (s : GuardState)
    (rules : List Rule) (p : List Char) (h : env.copyOk = false) :
    process_file ops env s rules p = (false, s, []) := by
  simp only [process_file, h]
  repeat' split
  all_goals first
    | rfl
    | (rename_i hff; exact absurd hff (by decide))

/-- Characterisation of a successful `process_file` run: some rule was
matched against the basename, it has a destination, the new name was
generated with the season default and the episode number recomputed from
the destination listing, and exactly that one copy was issued. -/
lemma process_file_true_spec (ops : PathOps) (env : Env) (s : GuardState)
    (rules : List Rule) (p : List Char) (s' : GuardState) (cs : List CopyOp)
    (h : process_file ops env s rules p = (true, s', cs)) :
    ∃ rule dest newName,
      find_matching_rule (ops.basename (ops.abspath p)) rules = some rule ∧
      rule.destination = some dest ∧
      generate_new_filename (ops.basename (ops.abspath p)) rule (rule.season.getD 1)
        (get_next_episode_number env.destListing) = some newName ∧
      cs = [(ops.abspath p, ops.join dest newName)] ∧
      s' = { s with processed := insertPath (ops.abspath p) s.processed } ∧
      env.copyOk = true := by
  simp only [process_file] at h
  repeat' split at h
  all_goals simp only [Prod.mk.injEq] at h
  all_goals try exact absurd h.1 (by decide)
  rename_i x2 rule hrule hpref x1 dest hdest x0 newName hgen hcopy
  exact ⟨rule, dest, newName, hrule, hdest, hgen, h.2.2.symm, h.2.1.symm, hcopy⟩

/-- The declarative readiness condition for `wfcAux` running with accumulator
`prev`: some sample equals its predecessor (the accumulator for the first
sample), is strictly positive, and no earlier attempt hit a missing file. -/
def StablePairFrom (prev : Int) (samples : List (Option Int)) : Prop :=
  ∃ i v, samples[i]? = some (some v) ∧ 0 < v ∧
    (match i with
     | 0 => prev = v
     | k + 1 => samples[k]? = some (some v)) ∧
    ∀ j < i, ∃ w, samples[j]? = some (some w)

/-- The probe loop returns ready exactly when the declarative readiness
condition holds. -/
lemma wfcAux_iff (samples : List (Option Int)) : ∀ prev,
    (wfcAux prev samples = true ↔ StablePairFrom prev samples) := by
  induction samples with
  | nil =>
    intro prev
    constructor
    · intro h; cases h
    · rintro ⟨i, v, hi, _, _, _⟩
      simp at hi
  | cons hd tl ih =>
    intro prev
    cases hd with
    | none =>
      constructor
      · intro h; cases h
      · rintro ⟨i, v, hi, hv, hpair, hall⟩
        cases i with
        | zero => simp at hi
        | succ k =>
          obtain ⟨w, hw⟩ := hall 0 (Nat.succ_pos k)
          simp at hw
    | some c =>
      by_cases hc : prev = c ∧ 0 < c
      · constructor
        · intro _
          exact ⟨0, c, by simp, hc.2, hc.1, fun j hj => absurd hj (Nat.not_lt_zero j)⟩
        · intro _
          show wfcAux prev (some c :: tl) = true
          simp [wfcAux, if_pos hc]
      · have hstep : wfcAux prev (some c :: tl) = wfcAux c tl := by
          simp [wfcAux, if_neg hc]
        rw [hstep, ih c]
        constructor
        · rintro ⟨i, v, hi, hv, hpair, hall⟩
          refine ⟨i + 1, v, by simpa using hi, hv, ?_, ?_⟩
          · cases i with
            | zero =>
              have hp : c = v := hpair
              simp [hp]
            | succ k =>
              have hp : tl[k]? = some (some v) := hpair
              simpa using hp
          · intro j hj
            cases j with
            | zero => exact ⟨c, by simp⟩
            | succ m =>
              obtain ⟨w, hw⟩ := hall m (Nat.lt_of_succ_lt_succ hj)
              exact ⟨w, by simpa using hw⟩
        · rintro ⟨i, v, hi, hv, hpair, hall⟩
          cases i with
          | zero =>
            have hp : prev = v := hpair
            simp only [List.getElem?_cons_zero, Option.some.injEq] at hi
            exact absurd ⟨by rw [hp, ← hi], by rw [hi]; exact hv⟩ hc
          | succ k =>
            refine ⟨k, v, by simpa using hi, hv, ?_, ?_⟩
            · cases k with
              | zero =>
                have hp : (some c :: tl)[0]? = some (some v) := hpair
                simp only [List.getElem?_cons_zero, Option.some.injEq] at hp
                exact hp
              | succ m =>
                have hp : (some c :: tl)[m + 1]? = some (some v) := hpair
                simpa using hp
            · intro j hj
              obtain ⟨w, hw⟩ := hall (j + 1) (Nat.succ_lt_succ hj)
              exact ⟨w, by simpa using hw⟩

/-- The per-rule matching test, declaratively: each keyword (lowercased) is
an infix of the lowercased filename. -/
lemma ruleMatches_iff (fl : List Char) (r : Rule) :
    ruleMatches fl r = true ↔ ∀ kw ∈ r.match_keywords, lowerStr kw <:+: fl := by
  simp [ruleMatches, containsSub, List.all_eq_true]

/-- After a rejected duplicate, iterating `process_file` any number of times
keeps returning `False` with no copies and no state change. -/
lemma iterateHandle_dup (ops : PathOps) (env : Env) (rules : List Rule)
    (p : List Char) : ∀ (n : Nat) (s : GuardState), ops.abspath p ∈ s.processed →
    iterateHandle ops env rules p n s = (List.replicate n false, [], s) := by
  intro n
  induction n with
  | zero => intro s _; rfl
  | succ k ih =>
    intro s h
    simp only [iterateHandle, process_file_dup _ _ _ _ _ h, ih s h, List.replicate_succ,
      List.nil_append]

/-- A rule without a `rename_format` falls back to the `title`-field
template, which the call never binds, so formatting always fails. -/
lemma gen_format_none (rule : Rule) (h : rule.rename_format = none) :
    ∀ (orig : List Char) (season episode : Nat),
      generate_new_filename orig rule season episode = none := by
  intro orig season episode
  simp [generate_new_filename, h, formatTemplate]

/-- C3: The size-stability probe returns ready exactly when, within its
sample budget, some sample equals the previous sample and is strictly
positive, with every earlier attempt seeing the file present.  In
particular, sizes 0,0,100,100 are ready only after the second 100; sizes
100,200,200 are ready; a file whose size stays 0 is never ready; and a
sample that finds the file missing aborts immediately, whatever would come
later. -/
theorem wait_for_file_complete_spec :
    (∀ samples : List (Option Int),
      wait_for_file_complete samples = true ↔
        ∃ i v, 1 ≤ i ∧ samples[i]? = some (some v) ∧ samples[i - 1]? = some (some v) ∧
          0 < v ∧ ∀ j < i, ∃ w, samples[j]? = some (some w)) ∧
    wait_for_file_complete [some 0, some 0, some 100] = false ∧
    wait_for_file_complete [some 0, some 0, some 100, some 100] = true ∧
    wait_for_file_complete [some 100, some 200, some 200] = true ∧
    (∀ n : Nat, wait_for_file_complete (List.replicate n (some 0)) = false) ∧
    (∀ (s1 : Int) (rest : List (Option Int)),
      wait_for_file_complete (some s1 :: none :: rest) = false) := by
  refine ⟨?_, by decide, by decide, by decide, ?_, ?_⟩
  · intro samples
    rw [wait_for_file_complete, wfcAux_iff]
    constructor
    · rintro ⟨i, v, hi, hv, hpair, hall⟩
      cases i with
      | zero =>
        have hp : (-1 : Int) = v := hpair
        omega
      | succ k =>
        have hp : samples[k]? = some (some v) := hpair
        exact ⟨k + 1, v, Nat.succ_le_succ (Nat.zero_le k), hi, hp, hv, hall⟩
    · rintro ⟨i, v, h1, hi, hprev, hv, hall⟩
      cases i with
      | zero => omega
      | succ k => exact ⟨k + 1, v, hi, hv, hprev, hall⟩
  · intro n
    cases h : wait_for_file_complete (List.replicate n (some 0)) with
    | false => rfl
    | true =>
      obtain ⟨i, v, hi, hv, _, _⟩ := (wfcAux_iff _ (-1)).mp h
      rw [List.getElem?_replicate] at hi
      split at hi
      · simp at hi
        omega
      · cases hi
  · intro s1 rest
    have hne : ¬((-1 : Int) = s1 ∧ 0 < s1) := by
      rintro ⟨h1, h2⟩
      omega
    simp [wait_for_file_complete, wfcAux, hne]

/-- Witness for C3: the characterisation applied at a concrete sample
sequence. -/
theorem wait_for_file_complete_spec_witness :
    wait_for_file_complete [some 7, some 7] = true :=
  (wait_for_file_complete_spec.1 [some 7, some 7]).mpr
    ⟨1, 7, Nat.le_refl 1, by decide, by decide, by decide, by
      intro j hj
      interval_cases j
      exact ⟨7, by decide⟩⟩

/-- C4: `find_matching_rule` returns the first rule (in stored order) all of
whose lowercased keywords occur as substrings of the lowercased filename,
and `none` when no rule qualifies; the Arcane rule with keywords `arcane`
and `s2` matches `Arcane.S2E01.mkv` and `ARCANE_S2_E01.mkv` but not
`Arcane.S1E01.mkv`, and when two rules both match, the earlier one wins. -/
theorem find_matching_rule_spec :
    (∀ (filename : List Char) (rules : List Rule) (r : Rule),
      find_matching_rule filename rules = some r ↔
        (∀ kw ∈ r.match_keywords, lowerStr kw <:+: lowerStr filename) ∧
        ∃ pre post, rules = pre ++ r :: post ∧
          ∀ r0 ∈ pre, ¬ ∀ kw ∈ r0.match_keywords, lowerStr kw <:+: lowerStr filename) ∧
    (∀ (filename : List Char) (rules : List Rule),
      find_matching_rule filename rules = none ↔
        ∀ r ∈ rules, ¬ ∀ kw ∈ r.match_keywords, lowerStr kw <:+: lowerStr filename) ∧
    find_matching_rule ("Arcane.S2E01.mkv".toList) [arcaneRule] = some arcaneRule ∧
    find_matching_rule ("ARCANE_S2_E01.mkv".toList) [arcaneRule] = some arcaneRule ∧
    find_matching_rule ("Arcane.S1E01.mkv".toList) [arcaneRule] = none ∧
    ruleMatches (lowerStr ("Arcane.S2E01.mkv".toList)) arcaneRule = true ∧
    ruleMatches (lowerStr ("Arcane.S2E01.mkv".toList)) catchAllRule = true ∧
    find_matching_rule ("Arcane.S2E01.mkv".toList) [arcaneRule, catchAllRule] = some arcaneRule ∧
    find_matching_rule ("Arcane.S2E01.mkv".toList) [catchAllRule, arcaneRule] = some catchAllRule := by
  refine ⟨?_, ?_, by decide, by decide, by decide, by decide, by decide, by decide, by decide⟩
  · intro f rules r
    rw [find_matching_rule, List.find?_eq_some]
    constructor
    · rintro ⟨hp, as, bs, hsplit, hpre⟩
      refine ⟨(ruleMatches_iff _ _).mp hp, as, bs, hsplit, ?_⟩
      intro r0 hr0 hk
      have h1 := hpre r0 hr0
      simp only [Bool.not_eq_eq_eq_not, Bool.not_true] at h1
      have h2 := (ruleMatches_iff (lowerStr f) r0).mpr hk
      rw [h1] at h2
      cases h2
    · rintro ⟨hall, as, bs, hsplit, hpre⟩
      refine ⟨(ruleMatches_iff _ _).mpr hall, as, bs, hsplit, ?_⟩
      intro a ha
      cases h : ruleMatches (lowerStr f) a with
      | false => rfl
      | true => exact absurd ((ruleMatches_iff _ _).mp h) (hpre a ha)
  · intro f rules
    rw [find_matching_rule, List.find?_eq_none]
    constructor
    · intro h r hr hk
      exact h r hr ((ruleMatches_iff _ _).mpr hk)
    · intro h r hr hb
      exact h r hr ((ruleMatches_iff _ _).mp hb)

/-- Witness for C4: the first-match characterisation applied at a concrete
filename and rule list. -/
theorem find_matching_rule_spec_witness :
    find_matching_rule ("Arcane.S2E01.mkv".toList) [catchAllRule, arcaneRule] =
      some catchAllRule :=
  (find_matching_rule_spec.1 _ _ _).mpr
    ⟨by decide, [], [arcaneRule], rfl, by simp⟩

/-- C5: `generate_new_filename` formats the rule's template with `season`
and `episode` bound and re-appends the extension produced by splitting the
original filename, unchanged; on `arcane.s2e05.mkv` with the Arcane template
and season 2, episode 5, it yields `Arcane - S02E05.mkv`. -/
theorem generate_new_filename_spec :
    (∀ (orig : List Char) (rule : Rule) (season episode : Nat) (body : List Char),
      formatTemplate season episode (rule.rename_format.getD [FormatTok.titleField]) =
        some body →
      generate_new_filename orig rule season episode =
        some (body ++ (splitext orig).2)) ∧
    generate_new_filename ("arcane.s2e05.mkv".toList) arcaneRule 2 5 =
      some ("Arcane - S02E05.mkv".toList) := by
  refine ⟨?_, by decide⟩
  intro orig rule season episode body h
  simp [generate_new_filename, h]

/-- Witness for C5: the general clause applied at a concrete filename,
rule, season and episode. -/
theorem generate_new_filename_spec_witness :
    generate_new_filename ("x.avi".toList) arcaneRule 3 7 =
      some (("Arcane - S03E07".toList) ++ (splitext ("x.avi".toList)).2) :=
  generate_new_filename_spec.1 ("x.avi".toList) arcaneRule 3 7
    ("Arcane - S03E07".toList) (by decide)

/-- C2: a path whose canonical form is already in the processed set is
rejected (`False`) with no copy issued and the state unchanged; the
processed set of the result always contains the processed set of the
argument (monotonic growth); an element is added exactly on a successful
(`True`) run, and a failed run leaves the set untouched — nothing is ever
removed. -/
theorem processed_set_spec :
    ∀ (ops : PathOps) (env : Env) (s : GuardState) (rules : List Rule) (p : List Char),
      (ops.abspath p ∈ s.processed → process_file ops env s rules p = (false, s, [])) ∧
      s.processed ⊆ (process_file ops env s rules p).2.1.processed ∧
      ((process_file ops env s rules p).1 = true →
        (process_file ops env s rules p).2.1.processed =
          insertPath (ops.abspath p) s.processed) ∧
      ((process_file ops env s rules p).1 = false →
        (process_file ops env s rules p).2.1.processed = s.processed) := by
  intro ops env s rules p
  refine ⟨process_file_dup ops env s rules p, ?_, ?_, ?_⟩
  · rcases process_file_cases ops env s rules p with h | ⟨dst, h⟩
    · rw [h]
      exact fun x hx => hx
    · rw [h]
      exact subset_insertPath (ops.abspath p) s.processed
  · rcases process_file_cases ops env s rules p with h | ⟨dst, h⟩
    · rw [h]
      intro ht
      cases ht
    · rw [h]
      intro _
      rfl
  · rcases process_file_cases ops env s rules p with h | ⟨dst, h⟩
    · rw [h]
      intro _
      rfl
    · rw [h]
      intro hf
      cases hf

/-- Witness for C2: the duplicate-rejection clause applied at a state that
already contains the canonical path. -/
theorem processed_set_spec_witness :
    process_file idOps goodEnv dupState [arcaneRule] racePath = (false, dupState, []) :=
  (processed_set_spec idOps goodEnv dupState [arcaneRule] racePath).1 (by decide)

/-- C6: the episode number is the count of regular files in the destination
directory plus one, and every successful dispatch names its copy with
exactly that number, recomputed from the destination listing observed at
dispatch time (there is no stored counter in the state). -/
theorem episode_number_spec :
    (∀ listing : List DirEntry,
      get_next_episode_number listing =
        (listing.filter (fun e => e.isFile)).length + 1) ∧
    ∀ (ops : PathOps) (env : Env) (s : GuardState) (rules : List Rule) (p : List Char)
      (s1 : GuardState) (cs : List CopyOp),
      process_file ops env s rules p = (true, s1, cs) →
      ∃ rule dest newName,
        find_matching_rule (ops.basename (ops.abspath p)) rules = some rule ∧
        rule.destination = some dest ∧
        generate_new_filename (ops.basename (ops.abspath p)) rule (rule.season.getD 1)
          ((env.destListing.filter (fun e => e.isFile)).length + 1) = some newName ∧
        cs = [(ops.abspath p, ops.join dest newName)] := by
  refine ⟨fun listing => rfl, ?_⟩
  intro ops env s rules p s1 cs h
  obtain ⟨rule, dest, newName, h1, h2, h3, h4, _, _⟩ :=
    process_file_true_spec ops env s rules p s1 cs h
  exact ⟨rule, dest, newName, h1, h2, h3, h4⟩

/-- Witness for C6: the successful concrete dispatch copies to a name
generated with episode number 3 (two regular files in the destination plus
one). -/
theorem episode_number_spec_witness :
    ∃ rule dest newName,
      find_matching_rule (idOps.basename (idOps.abspath racePath)) [arcaneRule] =
        some rule ∧
      rule.destination = some dest ∧
      generate_new_filename (idOps.basename (idOps.abspath racePath)) rule
        (rule.season.getD 1)
        ((goodEnv.destListing.filter (fun e => e.isFile)).length + 1) = some newName ∧
      [(racePath, ("/tv/Arcane/Arcane - S02E03.mkv".toList))] =
        [(idOps.abspath racePath, idOps.join dest newName)] :=
  episode_number_spec.2 idOps goodEnv freshState [arcaneRule] racePath
    { processed := [racePath], manual_scan_in_progress := false }
    [(racePath, ("/tv/Arcane/Arcane - S02E03.mkv".toList))] (by decide)

/-- C7: when the copy primitive fails, `process_file` returns `False`
(caught per-file; it cannot propagate, the Lean function is total), issues
no copy record of a completed copy, does not add the path to the processed
set, and leaves the state untouched, so a later notification can retry. -/
theorem copy_failure_spec :
    ∀ (ops : PathOps) (env : Env) (s : GuardState) (rules : List Rule) (p : List Char),
      env.copyOk = false →
      process_file ops env s rules p = (false, s, []) ∧
      (process_file ops env s rules p).2.1.processed = s.processed := by
  intro ops env s rules p h
  have h1 := process_file_copy_failed ops env s rules p h
  exact ⟨h1, by rw [h1]⟩

/-- Witness for C7: the failing-copy environment applied at the concrete
scenario. -/
theorem copy_failure_spec_witness :
    process_file idOps badCopyEnv freshState [arcaneRule] racePath =
      (false, freshState, []) :=
  (copy_failure_spec idOps badCopyEnv freshState [arcaneRule] racePath (by decide)).1

/-- C9: while the scan-mode flag is set, both live-event handlers are
no-ops: they return without reaching `process_file` (outcome `none`), leave
the state unchanged, issue no copy, and an unseen path stays outside the
processed set. -/
theorem scan_mode_spec :
    ∀ (ops : PathOps) (env : Env) (s : GuardState) (rules : List Rule)
      (p : List Char) (d : Bool),
      s.manual_scan_in_progress = true →
      on_created ops env s rules p d = (none, s, []) ∧
      on_modified ops env s rules p d = (none, s, []) ∧
      (ops.abspath p ∉ s.processed →
        ops.abspath p ∉ (on_created ops env s rules p d).2.1.processed) := by
  intro ops env s rules p d h
  have h1 : on_created ops env s rules p d = (none, s, []) := by
    cases d with
    | true => rfl
    | false => simp [on_created, h]
  have h2 : on_modified ops env s rules p d = (none, s, []) := by
    cases d with
    | true => rfl
    | false => simp [on_modified, h]
  refine ⟨h1, h2, ?_⟩
  intro hn
  rw [h1]
  exact hn

/-- Witness for C9: a live creation event during a manual scan at the
concrete scenario. -/
theorem scan_mode_spec_witness :
    on_created idOps goodEnv scanState [arcaneRule] racePath false =
      (none, scanState, []) ∧
    racePath ∉ (on_created idOps goodEnv scanState [arcaneRule] racePath false).2.1.processed :=
  ⟨(scan_mode_spec idOps goodEnv scanState [arcaneRule] racePath false (by decide)).1,
   (scan_mode_spec idOps goodEnv scanState [arcaneRule] racePath false (by decide)).2.2
     (by decide)⟩

/-- C10: a rule without a `rename_format` makes `generate_new_filename`
fail on every input (the fallback template's `title` field is never bound),
and a rule list made of such rules can never produce a successful
`process_file` run: the error is caught and the state is unchanged. -/
theorem missing_rename_format_spec :
    (∀ rule : Rule, rule.rename_format = none →
      ∀ (orig : List Char) (season episode : Nat),
        generate_new_filename orig rule season episode = none) ∧
    ∀ (ops : PathOps) (env : Env) (s : GuardState) (rules : List Rule) (p : List Char),
      (∀ r ∈ rules, r.rename_format = none) →
      process_file ops env s rules p = (false, s, []) := by
  refine ⟨gen_format_none, ?_⟩
  intro ops env s rules p hall
  rcases process_file_cases ops env s rules p with h | ⟨dst, h⟩
  · exact h
  · exfalso
    obtain ⟨rule, dest, nn, hfind, _, hgen, _, _, _⟩ :=
      process_file_true_spec ops env s rules p _ _ h
    rw [find_matching_rule] at hfind
    have hmem : rule ∈ rules := List.mem_of_find?_eq_some hfind
    rw [gen_format_none rule (hall rule hmem)] at hgen
    cases hgen

/-- Witness for C10: the destination-less, format-less rule applied at a
concrete file under its source. -/
theorem missing_rename_format_spec_witness :
    generate_new_filename ("a.mkv".toList) ruleNoDest 1 1 = none ∧
    process_file idOps goodEnv freshState [ruleNoDest] ("/dl/alpha.mkv".toList) =
      (false, freshState, []) :=
  ⟨missing_rename_format_spec.1 ruleNoDest (by decide) ("a.mkv".toList) 1 1,
   missing_rename_format_spec.2 idOps goodEnv freshState [ruleNoDest]
     ("/dl/alpha.mkv".toList) (by
       intro r hr
       cases hr with
       | head => rfl
       | tail _ h => cases h)⟩

/-- Counterexample to C1: two concurrent `handle` invocations on the same
never-seen path, interleaved so that both pass the lock-guarded membership
check before either performs its insert (check, check, copy, copy, insert,
insert), both return the `Processed` outcome and two copy operations are
issued for the path — not at most one `Processed` and exactly one copy. -/
theorem concurrent_dispatch_counterexample :
    raceInit.threads.length = 2 ∧
    (∀ t ∈ raceInit.threads, t.path = racePath ∧ t.pc = TPC.checking) ∧
    ((sysRun raceInit raceSched).threads.filter isProcessedOutcome).length = 2 ∧
    (sysRun raceInit raceSched).copies = [racePath, racePath] ∧
    ¬ (((sysRun raceInit raceSched).threads.filter isProcessedOutcome).length ≤ 1 ∧
        (sysRun raceInit raceSched).copies.length = 1) := by
  decide

/-- C1 as amended: when the N invocations of `handle` for one path are
sequential — each call completes before the next begins — and the first
call succeeds, the run yields exactly one `True` (`Processed`) outcome and
exactly one copy operation; every later call is rejected as a duplicate. -/
theorem sequential_dispatch_exactly_once :
    ∀ (ops : PathOps) (env : Env) (s : GuardState) (rules : List Rule)
      (p : List Char) (n : Nat),
      1 ≤ n →
      (process_file ops env s rules p).1 = true →
      (iterateHandle ops env rules p n s).1.count true = 1 ∧
      (iterateHandle ops env rules p n s).2.1.length = 1 := by
  intro ops env s rules p n hn htrue
  obtain ⟨m, rfl⟩ : ∃ m, n = m + 1 := ⟨n - 1, by omega⟩
  rcases process_file_cases ops env s rules p with h | ⟨dst, h⟩
  · rw [h] at htrue
    cases htrue
  · have hmem : ops.abspath p ∈
        (insertPath (ops.abspath p) s.processed) :=
      mem_insertPath_self _ _
    have hrest := iterateHandle_dup ops env rules p m
      { s with processed := insertPath (ops.abspath p) s.processed } hmem
    simp only [iterateHandle, h, hrest]
    constructor
    · simp [List.count_cons, List.count_replicate]
    · simp

/-- Witness for the amended C1: two sequential deliveries of the same path
in the concrete success scenario. -/
theorem sequential_dispatch_exactly_once_witness :
    (iterateHandle idOps goodEnv [arcaneRule] racePath 2 freshState).1.count true = 1 ∧
    (iterateHandle idOps goodEnv [arcaneRule] racePath 2 freshState).2.1.length = 1 :=
  sequential_dispatch_exactly_once idOps goodEnv freshState [arcaneRule] racePath 2
    (by decide) (by decide)

/-- C8 concerns the handler-construction loop of `start_watching`: a rule
with a valid source but no `destination` is skipped by the loop itself, yet
reappears inside the handler created for a sibling rule sharing the same
source (`source_rules` filters on `source` only), and `find_matching_rule`
can return it; `process_file` then fails on the missing destination.  This
evaluates that failing input. -/
theorem invalid_rule_retained :
    ruleNoDest.destination = none ∧
    buildHandlers dlIsdir [ruleNoDest, ruleWithDest] =
      [("/dl".toList, [ruleNoDest, ruleWithDest])] ∧
    find_matching_rule ("/dl/alpha.mkv".toList) [ruleNoDest, ruleWithDest] =
      some ruleNoDest ∧
    process_file idOps goodEnv freshState [ruleNoDest, ruleWithDest]
      ("/dl/alpha.mkv".toList) = (false, freshState, []) := by
  decide
